import Mathlib

/-!
Verification development for the parsing and
resolution core of the OpenIn browser extension (platforms.js and background.js).

Strings from the JavaScript source are modelled as `List Char`.  The three
regular expressions of platforms.js are modelled as deterministic matching
functions; the determinism of each translation is justified case by case:
every character class involved excludes the `/` delimiter that follows it,
so greedy matching with backtracking coincides with maximal-run splitting.
The optional scheme and `www.` prefixes of the full-URL pattern keep their
backtracking alternatives explicitly, in engine order.
-/

namespace OpenIn

/-! ## Character classes appearing in the regex literals of platforms.js -/

/-- The regex class `[a-zA-Z0-9]`. -/
def isAlnumC (c : Char) : Bool := c.isAlpha || c.isDigit

/-- The owner-body class `[a-zA-Z0-9-]`. -/
def isOwnerC (c : Char) : Bool := isAlnumC c || c = '-'

/-- The JavaScript regex class `\w`, namely `[A-Za-z0-9_]`. -/
def isWordC (c : Char) : Bool := isAlnumC c || c = '_'

/-- The repo class `[\w.-]`. -/
def isRepoC (c : Char) : Bool := isWordC c || c = '.' || c = '-'

/-- The domain class `[a-zA-Z0-9.-]`. -/
def isDomainC (c : Char) : Bool := isAlnumC c || c = '.' || c = '-'

/-- The JavaScript regex `.` (without the `s` flag): any character except a
line terminator. -/
def isDotC (c : Char) : Bool :=
  !(c = '\n' || c = '\r' || c = '\u2028' || c = '\u2029')

/-- Whitespace, for `String.prototype.trim` and the `\s` class (ASCII part). -/
def isWsC (c : Char) : Bool := c.isWhitespace

/-! ## Platform registry (the `PLATFORMS` object literal) -/

/-- One entry of the `PLATFORMS` table.  `singleName` and `allowAt` default to
`false`, matching absent properties in the object literal. -/
structure PlatformConfig where
  name : String
  keywords : List String
  urlPattern : String
  domain : String
  color : String
  icon : String
  singleName : Bool := false
  allowAt : Bool := false
deriving DecidableEq, Repr

/-- The `PLATFORMS` object of platforms.js, in property insertion order
(which `Object.entries` preserves). -/
def PLATFORMS : List (String × PlatformConfig) :=
  [ ("github",
     { name := "GitHub", keywords := ["github", "gh"],
       urlPattern := "https://github.com/{owner}/{repo}{path}",
       domain := "github.com", color := "#24292e", icon := "🐙" }),
    ("gitlab",
     { name := "GitLab", keywords := ["gitlab", "gl"],
       urlPattern := "https://gitlab.com/{owner}/{repo}{path}",
       domain := "gitlab.com", color := "#fc6d26", icon := "🦊" }),
    ("bitbucket",
     { name := "Bitbucket", keywords := ["bitbucket", "bb"],
       urlPattern := "https://bitbucket.org/{owner}/{repo}{path}",
       domain := "bitbucket.org", color := "#0052cc", icon := "🪣" }),
    ("gitee",
     { name := "Gitee", keywords := ["gitee", "ge"],
       urlPattern := "https://gitee.com/{owner}/{repo}{path}",
       domain := "gitee.com", color := "#c71d23", icon := "🇨🇳" }),
    ("npm",
     { name := "npm", keywords := ["npm", "npmjs"],
       urlPattern := "https://www.npmjs.com/package/{owner}{path}",
       domain := "npmjs.com", color := "#cb3837", icon := "📦",
       singleName := true, allowAt := true }),
    ("docker",
     { name := "Docker Hub", keywords := ["docker", "dockerhub"],
       urlPattern := "https://hub.docker.com/r/{owner}/{repo}{path}",
       domain := "hub.docker.com", color := "#2496ed", icon := "🐳" }),
    ("pypi",
     { name := "PyPI", keywords := ["pypi", "pip", "python"],
       urlPattern := "https://pypi.org/project/{owner}{path}",
       domain := "pypi.org", color := "#3775a9", icon := "🐍",
       singleName := true, allowAt := true }),
    ("rubygems",
     { name := "RubyGems", keywords := ["gem", "rubygems", "ruby"],
       urlPattern := "https://rubygems.org/gems/{owner}{path}",
       domain := "rubygems.org", color := "#cc342d", icon := "💎",
       singleName := true }),
    ("packagist",
     { name := "Packagist", keywords := ["packagist", "composer", "php"],
       urlPattern := "https://packagist.org/packages/{owner}/{repo}{path}",
       domain := "packagist.org", color := "#f28d1a", icon := "🎼" }),
    ("crates",
     { name := "crates.io", keywords := ["crates", "cargo", "rust"],
       urlPattern := "https://crates.io/crates/{owner}{path}",
       domain := "crates.io", color := "#f74b00", icon := "🦀",
       singleName := true }),
    ("nuget",
     { name := "NuGet", keywords := ["nuget", "dotnet", "csharp"],
       urlPattern := "https://www.nuget.org/packages/{owner}{path}",
       domain := "nuget.org", color := "#004880", icon := "📘",
       singleName := true }),
    ("maven",
     { name := "Maven Central", keywords := ["maven", "mvn", "java"],
       urlPattern := "https://search.maven.org/artifact/{owner}/{repo}{path}",
       domain := "search.maven.org", color := "#c71a36", icon := "☕" }),
    ("zerocat",
     { name := "ZeroCat", keywords := ["zerocat", "zc"],
       urlPattern := "https://zerocat.dev/{owner}/{repo}{path}",
       domain := "zerocat.dev", color := "#ff6600", icon := "🐱" }) ]

/-! ## Generic helpers -/

/-- First `some` produced by `f` along a list; models a `for` loop with an
early `return`. -/
def firstSome (f : α → Option β) : List α → Option β
  | [] => none
  | a :: rest =>
    match f a with
    | some b => some b
    | none => firstSome f rest

/-- `hay.includes(needle)` of JavaScript: contiguous-substring test. -/
def containsSub (hay needle : List Char) : Bool :=
  match hay with
  | [] => needle.isEmpty
  | _ :: t => needle.isPrefixOf hay || containsSub t needle

/-- `String.prototype.toLowerCase`, ASCII fragment. -/
def lowerStr (l : List Char) : List Char := l.map Char.toLower

/-! ## Registry lookup functions of platforms.js -/

/-- `findPlatformByKeyword`: case-insensitive exact match against each
keyword array of each platform, first platform in table order wins. -/
def findPlatformByKeyword (keyword : List Char) : Option String :=
  let lowerKeyword := lowerStr keyword
  firstSome
    (fun e =>
      if e.2.keywords.any (fun s => s.data == lowerKeyword) then some e.1 else none)
    PLATFORMS

/-- `findPlatformByDomain`: mutual-substring test between the lowercased
candidate and the canonical domain of each platform, first match wins. -/
def findPlatformByDomain (domain : List Char) : Option String :=
  let lowerDomain := lowerStr domain
  firstSome
    (fun e =>
      if containsSub lowerDomain e.2.domain.data || containsSub e.2.domain.data lowerDomain
      then some e.1 else none)
    PLATFORMS

/-- `getPlatformInfo`, restricted to the registry content: the own-property
lookup in the `PLATFORMS` table (the notion of a key being in the registry).
The raw bracket access, prototype chain included, is `platformsAccess`
below. -/
def getPlatformInfo (platform : String) : Option PlatformConfig :=
  firstSome (fun e => if e.1 == platform then some e.2 else none) PLATFORMS

/-- One `String.prototype.replace(pattern, replacement)` call with a plain
string pattern: replaces the first occurrence only; the empty pattern matches
at index 0. -/
def replaceFirst (s pat rep : List Char) : List Char :=
  match s with
  | [] => if pat.isPrefixOf ([] : List Char) then rep else []
  | c :: t =>
    if pat.isPrefixOf (c :: t) then rep ++ (c :: t).drop pat.length
    else c :: replaceFirst t pat rep

/-- `buildRepoUrl` of platforms.js: template substitution of `{owner}`,
`{repo}`, `{path}` in that order; `null` for an unknown platform key; the
`path || ""` coercion of the falsy empty string is the identity here.  This
is the behaviour for every key whose bracket access does not hit an
inherited `Object.prototype` property; `buildRepoUrlJs` below adds that
failure path. -/
def buildRepoUrl (platform : String) (owner repo path : List Char) :
    Option (List Char) :=
  match getPlatformInfo platform with
  | none => none
  | some config =>
    some (replaceFirst
            (replaceFirst
              (replaceFirst config.urlPattern.data ("{owner}".data) owner)
              ("{repo}".data) repo)
            ("{path}".data) (if path.isEmpty then [] else path))

/-- The own property keys of `Object.prototype`, inherited by every object
literal through the prototype chain. -/
def OBJECT_PROTOTYPE_KEYS : List String :=
  ["constructor", "hasOwnProperty", "isPrototypeOf", "propertyIsEnumerable",
   "toLocaleString", "toString", "valueOf", "__proto__", "__defineGetter__",
   "__defineSetter__", "__lookupGetter__", "__lookupSetter__"]

/-- Outcome of the JavaScript bracket access `PLATFORMS[platform]`: an own
property of the object literal, a truthy value inherited from
`Object.prototype` (a method, or `Object.prototype` itself for the
`__proto__` accessor), or `undefined`. -/
inductive PropAccess where
  | own (config : PlatformConfig)
  | inherited
  | undef
deriving DecidableEq, Repr

/-- The bracket access `PLATFORMS[platform]`, prototype chain included. -/
def platformsAccess (platform : String) : PropAccess :=
  match getPlatformInfo platform with
  | some config => PropAccess.own config
  | none =>
    if OBJECT_PROTOTYPE_KEYS.contains platform then PropAccess.inherited
    else PropAccess.undef

/-- Result of one `buildRepoUrl` call in JavaScript: a thrown TypeError, or
a returned value (a URL string or null). -/
inductive JsResult where
  | thrown
  | value (url : Option (List Char))
deriving DecidableEq, Repr

/-- `buildRepoUrl` with the JavaScript property access made explicit: an
inherited `Object.prototype` key passes the `!config` guard as a truthy
value, but its `urlPattern` is `undefined`, so the first `replace` call
throws a TypeError; an `undefined` access returns null; an own key
substitutes the placeholders exactly as `buildRepoUrl` does. -/
def buildRepoUrlJs (platform : String) (owner repo path : List Char) :
    JsResult :=
  match platformsAccess platform with
  | PropAccess.undef => JsResult.value none
  | PropAccess.inherited => JsResult.thrown
  | PropAccess.own config =>
    JsResult.value (some (replaceFirst
      (replaceFirst
        (replaceFirst config.urlPattern.data ("{owner}".data) owner)
        ("{repo}".data) repo)
      ("{path}".data) (if path.isEmpty then [] else path)))

/-! ## The three regex patterns, as deterministic matchers -/

/-- Splits a list at its first `/`: the prefix before it and the suffix after
it.  `none` when no `/` occurs. -/
def splitAtSlash : List Char → Option (List Char × List Char)
  | [] => none
  | c :: rest =>
    if c = '/' then some ([], rest)
    else
      match splitAtSlash rest with
      | some (a, b) => some (c :: a, b)
      | none => none

/-- The owner group `[a-zA-Z0-9](?:[a-zA-Z0-9-]{0,37}[a-zA-Z0-9])?` applied to
a whole segment: 1 to 39 characters of alphanumerics and hyphen, first and
last alphanumeric. -/
def validOwner (o : List Char) : Bool :=
  !o.isEmpty && decide (o.length ≤ 39) && o.all isOwnerC &&
    (match o.head? with | some c => isAlnumC c | none => false) &&
    (match o.getLast? with | some c => isAlnumC c | none => false)

/-- The shared tail `([\w.-]+)(\/.*)?$` of the path-bearing patterns: a
nonempty greedy repo run, then either the end of the string or a `/` followed
by line-terminator-free text. -/
def matchRepoPath (r : List Char) : Option (List Char × List Char) :=
  let repo := r.takeWhile isRepoC
  let rest := r.dropWhile isRepoC
  if repo.isEmpty then none
  else
    match rest with
    | [] => some (repo, [])
    | '/' :: t => if t.all isDotC then some (repo, '/' :: t) else none
    | _ => none

/-- `REPO_PATTERN`:
`^([a-zA-Z0-9](?:[a-zA-Z0-9-]{0,37}[a-zA-Z0-9])?)\/([\w.-]{1,100})$`. -/
def REPO_PATTERN (l : List Char) : Option (List Char × List Char) :=
  match splitAtSlash l with
  | none => none
  | some (owner, r) =>
    if validOwner owner && !r.isEmpty && decide (r.length ≤ 100) && r.all isRepoC
    then some (owner, r) else none

/-- `REPO_WITH_PATH_PATTERN`:
`^([a-zA-Z0-9](?:[a-zA-Z0-9-]{0,37}[a-zA-Z0-9])?)\/([\w.-]+)(\/.*)?$`.
The unmatched optional path group is the empty string (the destructuring
default `path = ""` of the caller). -/
def REPO_WITH_PATH_PATTERN (l : List Char) :
    Option (List Char × List Char × List Char) :=
  match splitAtSlash l with
  | none => none
  | some (owner, r) =>
    if validOwner owner then
      match matchRepoPath r with
      | none => none
      | some (repo, path) => some (owner, repo, path)
    else none

/-- Alternatives for the optional scheme `(?:https?:\/\/)?`, in engine
backtracking order: consume the prefix when present, then fall back to
skipping it. -/
def schemeCands (l : List Char) : List (List Char) :=
  if ("https://".data).isPrefixOf l then [l.drop 8, l]
  else if ("http://".data).isPrefixOf l then [l.drop 7, l]
  else [l]

/-- Alternatives for the optional `(?:www\.)?` prefix, in engine order. -/
def wwwCands (l : List Char) : List (List Char) :=
  if ("www.".data).isPrefixOf l then [l.drop 4, l] else [l]

/-- All starting points the engine tries for the mandatory part of
`FULL_URL_PATTERN`, in backtracking order. -/
def urlCandidates (l : List Char) : List (List Char) :=
  ((schemeCands l).map wwwCands).flatten

/-- The mandatory part `([a-zA-Z0-9.-]+)\/(owner)\/([\w.-]+)(\/.*)?$` of
`FULL_URL_PATTERN` from a fixed starting point. -/
def fullUrlCore (l : List Char) :
    Option (List Char × List Char × List Char × List Char) :=
  match splitAtSlash l with
  | none => none
  | some (domain, r1) =>
    if domain.isEmpty then none
    else if !domain.all isDomainC then none
    else
      match splitAtSlash r1 with
      | none => none
      | some (owner, r2) =>
        if validOwner owner then
          match matchRepoPath r2 with
          | none => none
          | some (repo, path) => some (domain, owner, repo, path)
        else none

/-- `FULL_URL_PATTERN`:
`^(?:https?:\/\/)?(?:www\.)?([a-zA-Z0-9.-]+)\/(owner)\/([\w.-]+)(\/.*)?$`. -/
def FULL_URL_PATTERN (l : List Char) :
    Option (List Char × List Char × List Char × List Char) :=
  firstSome fullUrlCore (urlCandidates l)

/-! ## The resolver of platforms.js -/

/-- A `{platform, owner, repo, path}` object produced by the resolver. -/
structure ResolvedTarget where
  platform : String
  owner : List Char
  repo : List Char
  path : List Char
deriving DecidableEq, Repr

/-- `String.prototype.trim`. -/
def trim (l : List Char) : List Char :=
  ((l.dropWhile isWsC).reverse.dropWhile isWsC).reverse

/-- Steps 2 and 3 of `parseRepoInput` (reached when the full-URL step does not
return): the path-bearing pattern, then the bare pattern, both binding to the
configured default platform. -/
def repoFallback (dp : String) (trimmed : List Char) : Option ResolvedTarget :=
  match REPO_WITH_PATH_PATTERN trimmed with
  | some (owner, repo, path) =>
    some { platform := dp, owner := owner, repo := repo, path := path }
  | none =>
    match REPO_PATTERN trimmed with
    | some (owner, repo) =>
      some { platform := dp, owner := owner, repo := repo, path := [] }
    | none => none

/-- `parseRepoInput`, with the ambient `DEFAULT_PLATFORM` global passed as
`dp`.  The falsy-string guard on the raw input and on its trimmed form are the
two `isEmpty` tests. -/
def parseRepoInput (dp : String) (input : List Char) : Option ResolvedTarget :=
  if input.isEmpty then none
  else
    let trimmed := trim input
    if trimmed.isEmpty then none
    else
      match FULL_URL_PATTERN trimmed with
      | some (domain, owner, repo, path) =>
        match findPlatformByDomain domain with
        | some platform =>
          some { platform := platform, owner := owner, repo := repo, path := path }
        | none => repoFallback dp trimmed
      | none => repoFallback dp trimmed

/-- `query.split(/\s+/)` on a trimmed string: whitespace-run separated
tokens. -/
def splitWsAux : List Char → List Char → List (List Char)
  | [], acc => if acc.isEmpty then [] else [acc.reverse]
  | c :: rest, acc =>
    if isWsC c then
      if acc.isEmpty then splitWsAux rest [] else acc.reverse :: splitWsAux rest []
    else splitWsAux rest (c :: acc)

/-- Tokenization used by `parseSearchQuery`. -/
def splitWs (l : List Char) : List (List Char) := splitWsAux l []

/-- The keyword-detection block of `parseSearchQuery`: with at least two
tokens, a first-token keyword wins, then a last-token keyword; the stripped
remainder is rejoined with single spaces.  Otherwise the default platform and
the whole trimmed query are kept. -/
def detectKeyword (dp : String) (trimmed : List Char) (parts : List (List Char)) :
    String × List Char :=
  if 2 ≤ parts.length then
    match findPlatformByKeyword (parts.headD []) with
    | some firstPlatform => (firstPlatform, List.intercalate [' '] (parts.drop 1))
    | none =>
      match findPlatformByKeyword (parts.getLastD []) with
      | some lastPlatform => (lastPlatform, List.intercalate [' '] parts.dropLast)
      | none => (dp, trimmed)
  else (dp, trimmed)

/-- `parseSearchQuery`: keyword detection, then `parseRepoInput` on the
cleaned query, overriding the platform of a successful result with the
detected one (the configured default when no keyword was found). -/
def parseSearchQuery (dp : String) (query : List Char) : Option ResolvedTarget :=
  if query.isEmpty then none
  else
    let trimmed := trim query
    if trimmed.isEmpty then none
    else
      let dc := detectKeyword dp trimmed (splitWs trimmed)
      match parseRepoInput dp dc.2 with
      | some result => some { result with platform := dc.1 }
      | none => none

/-! ## background.js: bypass list and redirect guard -/

/-- The built-in bypass list of background.js. -/
def DEFAULT_BYPASS_PATTERNS : List (List Char) := ["localhost".data]

/-- `shouldBypass`: some pattern, lowercased, occurs in the lowercased URL. -/
def shouldBypass (url : List Char) (bypassPatterns : List (List Char)) : Bool :=
  let urlLower := lowerStr url
  bypassPatterns.any (fun pattern => containsSub urlLower (lowerStr pattern))

/-- The dedup key template of the redirect guard. -/
def jumpKey (platform owner repo : String) : List Char :=
  platform.data ++ ':' :: (owner.data ++ '/' :: repo.data)

/-- `Map.prototype.get` on the association-list model of `recentJumps`. -/
def jsMapGet (m : List (List Char × Nat)) (k : List Char) : Option Nat :=
  match m with
  | [] => none
  | e :: rest => if e.1 = k then some e.2 else jsMapGet rest k

/-- `Map.prototype.delete`. -/
def jsMapDelete (m : List (List Char × Nat)) (k : List Char) :
    List (List Char × Nat) :=
  m.filter (fun e => decide (e.1 ≠ k))

/-- `Map.prototype.set` (observationally: later `get`s of `k` see `v`). -/
def jsMapSet (m : List (List Char × Nat)) (k : List Char) (v : Nat) :
    List (List Char × Nat) :=
  (k, v) :: jsMapDelete m k

/-- `isRecentJump` of background.js, with `Date.now()` passed as `now`:
returns the boolean answer together with the updated `recentJumps` table
(expired records are deleted on discovery).  The `!lastJump` guard of the
source is falsy both for a missing record and for the stored timestamp 0:
either way the function returns false at once, deleting nothing. -/
def isRecentJump (m : List (List Char × Nat)) (now : Nat)
    (platform owner repo : String) : Bool × List (List Char × Nat) :=
  let key := jumpKey platform owner repo
  match jsMapGet m key with
  | none => (false, m)
  | some lastJump =>
    if lastJump = 0 then (false, m)
    else if now - lastJump < 5000 then (true, m)
    else (false, jsMapDelete m key)

/-- `recordJump` of background.js: unconditionally (re)inserts the timestamp.
The deferred purge it schedules is `recordJumpPurge` below, run as a separate
later event. -/
def recordJump (m : List (List Char × Nat)) (now : Nat)
    (platform owner repo : String) : List (List Char × Nat) :=
  jsMapSet m (jumpKey platform owner repo) now

/-- The `setTimeout` callback scheduled by `recordJump`: deletes the record if
it is at least 10000 ms old when the timer fires. -/
def recordJumpPurge (m : List (List Char × Nat)) (now : Nat) (key : List Char) :
    List (List Char × Nat) :=
  match jsMapGet m key with
  | some timestamp => if 10000 ≤ now - timestamp then jsMapDelete m key else m
  | none => m

/-- The registry entry of GitHub, the first platform in table order. -/
def githubEntry : String × PlatformConfig :=
  ("github",
   { name := "GitHub", keywords := ["github", "gh"],
     urlPattern := "https://github.com/{owner}/{repo}{path}",
     domain := "github.com", color := "#24292e", icon := "🐙" })

/-! ## Lemmas about the generic helpers -/

theorem splitAtSlash_append (o r : List Char) (h : '/' ∉ o) :
    splitAtSlash (o ++ '/' :: r) = some (o, r) := by
  induction o with
  | nil => simp [splitAtSlash]
  | cons c t ih =>
    have hc : ¬ c = '/' := fun e => h (by simp [e])
    have ht : '/' ∉ t := fun m => h (List.mem_cons_of_mem _ m)
    simp [splitAtSlash, hc, ih ht]

theorem splitAtSlash_of_not_mem {l : List Char} (h : '/' ∉ l) :
    splitAtSlash l = none := by
  induction l with
  | nil => rfl
  | cons c t ih =>
    have hc : ¬ c = '/' := fun e => h (by simp [e])
    have ht : '/' ∉ t := fun m => h (List.mem_cons_of_mem _ m)
    simp [splitAtSlash, hc, ih ht]

theorem splitAtSlash_eq_some : ∀ {l a b : List Char},
    splitAtSlash l = some (a, b) → l = a ++ '/' :: b ∧ '/' ∉ a := by
  intro l
  induction l with
  | nil => intro a b h; exact Option.noConfusion h
  | cons c t ih =>
    intro a b h
    unfold splitAtSlash at h
    by_cases hc : c = '/'
    · rw [if_pos hc] at h
      simp only [Option.some.injEq, Prod.mk.injEq] at h
      obtain ⟨rfl, rfl⟩ := h
      subst hc
      exact ⟨rfl, by simp⟩
    · rw [if_neg hc] at h
      cases hs : splitAtSlash t with
      | none => rw [hs] at h; exact Option.noConfusion h
      | some ab =>
        obtain ⟨x, y⟩ := ab
        rw [hs] at h
        simp only [Option.some.injEq, Prod.mk.injEq] at h
        obtain ⟨rfl, rfl⟩ := h
        obtain ⟨h1, h2⟩ := ih hs
        constructor
        · rw [h1]; rfl
        · intro hm
          rcases List.mem_cons.mp hm with e | hm
          · exact hc e.symm
          · exact h2 hm

theorem takeWhile_of_all {p : Char → Bool} {l : List Char} (h : l.all p = true) :
    l.takeWhile p = l :=
  List.takeWhile_eq_self_iff.mpr (fun x hx => List.all_eq_true.mp h x hx)

theorem dropWhile_of_all {p : Char → Bool} {l : List Char} (h : l.all p = true) :
    l.dropWhile p = [] :=
  List.dropWhile_eq_nil_iff.mpr (fun x hx => List.all_eq_true.mp h x hx)

theorem firstSome_eq_some {f : α → Option β} : ∀ {l : List α} {b : β},
    firstSome f l = some b → ∃ a ∈ l, f a = some b := by
  intro l
  induction l with
  | nil => intro b h; exact Option.noConfusion h
  | cons a t ih =>
    intro b h
    unfold firstSome at h
    cases hf : f a with
    | some c => rw [hf] at h; exact ⟨a, by simp, hf.trans h⟩
    | none =>
      rw [hf] at h
      obtain ⟨x, hx, hfx⟩ := ih h
      exact ⟨x, List.mem_cons_of_mem _ hx, hfx⟩

theorem firstSome_eq_none {f : α → Option β} : ∀ {l : List α},
    (∀ a ∈ l, f a = none) → firstSome f l = none := by
  intro l
  induction l with
  | nil => intro _; rfl
  | cons a t ih =>
    intro h
    unfold firstSome
    rw [h a (by simp)]
    exact ih (fun x hx => h x (List.mem_cons_of_mem _ hx))

theorem firstSome_isSome {f : α → Option β} : ∀ {l : List α},
    (∃ a ∈ l, (f a).isSome = true) → (firstSome f l).isSome = true := by
  intro l
  induction l with
  | nil => rintro ⟨a, ha, -⟩; exact absurd ha (List.not_mem_nil a)
  | cons a t ih =>
    rintro ⟨x, hx, hfx⟩
    unfold firstSome
    cases hf : f a with
    | some c => simp
    | none =>
      rcases List.mem_cons.mp hx with rfl | hx2
      · exact absurd hfx (by simp [hf])
      · exact ih ⟨x, hx2, hfx⟩

theorem containsSub_iff {hay needle : List Char} :
    containsSub hay needle = true ↔ needle <:+: hay := by
  induction hay with
  | nil =>
    constructor
    · intro h
      have : needle = [] := by simpa [containsSub, List.isEmpty_iff] using h
      simp [this]
    · intro h
      have : needle = [] := List.eq_nil_of_infix_nil h
      simp [containsSub, this]
  | cons c t ih =>
    unfold containsSub
    rw [Bool.or_eq_true, List.infix_cons_iff, ih]
    constructor
    · rintro (h | h)
      · exact Or.inl (by simpa using h)
      · exact Or.inr h
    · rintro (h | h)
      · exact Or.inl (by simpa using h)
      · exact Or.inr h


/-! ## Character-class facts -/

theorem isDomainC_of_isOwnerC {c : Char} (h : isOwnerC c = true) :
    isDomainC c = true := by
  simp only [isOwnerC, Bool.or_eq_true] at h
  rcases h with h | h
  · simp [isDomainC, h]
  · simp [isDomainC, h]

theorem not_ws_of_isOwnerC {c : Char} (h : isOwnerC c = true) : isWsC c = false := by
  cases hw : isWsC c
  · rfl
  · exfalso
    have hcs : ((c = ' ' ∨ c = '\t') ∨ c = '\r') ∨ c = '\n' := by
      simpa [isWsC, Char.isWhitespace] using hw
    rcases hcs with ((rfl | rfl) | rfl) | rfl <;> exact absurd h (by decide)

theorem not_ws_of_isRepoC {c : Char} (h : isRepoC c = true) : isWsC c = false := by
  cases hw : isWsC c
  · rfl
  · exfalso
    have hcs : ((c = ' ' ∨ c = '\t') ∨ c = '\r') ∨ c = '\n' := by
      simpa [isWsC, Char.isWhitespace] using hw
    rcases hcs with ((rfl | rfl) | rfl) | rfl <;> exact absurd h (by decide)

/-! ## Lemmas about the pattern matchers -/

theorem matchRepoPath_spec {r repo p : List Char}
    (h : matchRepoPath r = some (repo, p)) :
    repo ≠ [] ∧ repo.all isRepoC = true ∧ (p = [] ∨ p.head? = some '/') := by
  simp only [matchRepoPath] at h
  split at h
  · exact Option.noConfusion h
  · rename_i he
    split at h
    · simp only [Option.some.injEq, Prod.mk.injEq] at h
      obtain ⟨rfl, rfl⟩ := h
      refine ⟨?_, List.all_takeWhile, Or.inl rfl⟩
      intro hnil
      rw [hnil] at he
      exact he rfl
    · rename_i t2
      split at h
      · simp only [Option.some.injEq, Prod.mk.injEq] at h
        obtain ⟨rfl, rfl⟩ := h
        refine ⟨?_, List.all_takeWhile, Or.inr rfl⟩
        intro hnil
        rw [hnil] at he
        exact he rfl
      · exact Option.noConfusion h
    · exact Option.noConfusion h

theorem matchRepoPath_all_repo {r : List Char} (h1 : r ≠ [])
    (h2 : r.all isRepoC = true) : matchRepoPath r = some (r, []) := by
  simp [matchRepoPath, takeWhile_of_all h2, dropWhile_of_all h2, h1]

theorem validOwner_spec {o : List Char} (h : validOwner o = true) :
    o ≠ [] ∧ o.length ≤ 39 ∧ o.all isOwnerC = true ∧
      (∀ c, o.head? = some c → isAlnumC c = true) ∧
      (∀ c, o.getLast? = some c → isAlnumC c = true) := by
  unfold validOwner at h
  simp only [Bool.and_eq_true, decide_eq_true_eq] at h
  obtain ⟨⟨⟨⟨hne, hlen⟩, hall⟩, hhd⟩, hlast⟩ := h
  refine ⟨?_, hlen, hall, ?_, ?_⟩
  · intro hnil
    rw [hnil] at hne
    exact absurd hne (by decide)
  · intro c hc
    rw [hc] at hhd
    exact hhd
  · intro c hc
    rw [hc] at hlast
    exact hlast

theorem REPO_spec {l o r : List Char} (h : REPO_PATTERN l = some (o, r)) :
    splitAtSlash l = some (o, r) ∧ validOwner o = true ∧ r ≠ [] ∧
      r.length ≤ 100 ∧ r.all isRepoC = true := by
  simp only [REPO_PATTERN] at h
  split at h
  · exact Option.noConfusion h
  · rename_i ow rest heq
    split at h
    · rename_i hcond
      simp only [Option.some.injEq, Prod.mk.injEq] at h
      obtain ⟨rfl, rfl⟩ := h
      simp only [Bool.and_eq_true, decide_eq_true_eq] at hcond
      obtain ⟨⟨⟨hvo, hrne⟩, hlen⟩, hall⟩ := hcond
      refine ⟨heq, hvo, ?_, hlen, hall⟩
      intro hnil
      rw [hnil] at hrne
      exact absurd hrne (by decide)
    · exact Option.noConfusion h

theorem REPO_WITH_PATH_spec {l o r p : List Char}
    (h : REPO_WITH_PATH_PATTERN l = some (o, r, p)) :
    validOwner o = true ∧ r ≠ [] ∧ r.all isRepoC = true ∧
      (p = [] ∨ p.head? = some '/') := by
  simp only [REPO_WITH_PATH_PATTERN] at h
  split at h
  · exact Option.noConfusion h
  · rename_i ow rest heq
    split at h
    · rename_i hvo
      split at h
      · exact Option.noConfusion h
      · rename_i repo path heqRP
        simp only [Option.some.injEq, Prod.mk.injEq] at h
        obtain ⟨rfl, rfl, rfl⟩ := h
        exact ⟨hvo, matchRepoPath_spec heqRP⟩
    · exact Option.noConfusion h

theorem fullUrlCore_spec {l d o r p : List Char}
    (h : fullUrlCore l = some (d, o, r, p)) :
    validOwner o = true ∧ r ≠ [] ∧ r.all isRepoC = true ∧
      (p = [] ∨ p.head? = some '/') := by
  simp only [fullUrlCore] at h
  split at h
  · exact Option.noConfusion h
  · rename_i domain r1 heq1
    split at h
    · exact Option.noConfusion h
    · split at h
      · exact Option.noConfusion h
      · split at h
        · exact Option.noConfusion h
        · rename_i owner r2 heq2
          split at h
          · rename_i hvo
            split at h
            · exact Option.noConfusion h
            · rename_i repo path heqRP
              simp only [Option.some.injEq, Prod.mk.injEq] at h
              obtain ⟨rfl, rfl, rfl, rfl⟩ := h
              exact ⟨hvo, matchRepoPath_spec heqRP⟩
          · exact Option.noConfusion h

theorem FULL_URL_spec {l d o r p : List Char}
    (h : FULL_URL_PATTERN l = some (d, o, r, p)) :
    validOwner o = true ∧ r ≠ [] ∧ r.all isRepoC = true ∧
      (p = [] ∨ p.head? = some '/') := by
  obtain ⟨c, _, hcore⟩ := firstSome_eq_some h
  exact fullUrlCore_spec hcore

/-! ## Trim lemmas -/

theorem dropWhile_ws_eq_self {l : List Char} (h : ∀ c ∈ l, isWsC c = false) :
    l.dropWhile isWsC = l := by
  cases l with
  | nil => rfl
  | cons c t => simp [List.dropWhile_cons, h c (List.mem_cons_self c t)]

theorem trim_eq_self {l : List Char} (h : ∀ c ∈ l, isWsC c = false) :
    trim l = l := by
  unfold trim
  rw [dropWhile_ws_eq_self h]
  rw [dropWhile_ws_eq_self (fun c hc => h c (List.mem_reverse.mp hc))]
  exact List.reverse_reverse l

theorem mem_of_mem_trim {c : Char} {l : List Char} (h : c ∈ trim l) : c ∈ l := by
  unfold trim at h
  rw [List.mem_reverse] at h
  have h1 : c ∈ (l.dropWhile isWsC).reverse := (List.dropWhile_sublist _).subset h
  rw [List.mem_reverse] at h1
  exact (List.dropWhile_sublist _).subset h1

/-! ## Map-model lemmas -/

theorem jsMapGet_set (m : List (List Char × Nat)) (k : List Char) (v : Nat) :
    jsMapGet (jsMapSet m k v) k = some v := by
  simp [jsMapSet, jsMapGet]

theorem jsMapGet_delete (m : List (List Char × Nat)) (k : List Char) :
    jsMapGet (jsMapDelete m k) k = none := by
  induction m with
  | nil => rfl
  | cons e rest ih =>
    by_cases he : e.1 = k
    · simpa [jsMapDelete, List.filter_cons, he] using ih
    · simpa [jsMapDelete, List.filter_cons, he, jsMapGet] using ih


/-! ## Candidate-list lemmas for the full-URL pattern -/

theorem schemeCands_drop {l c : List Char} (hc : c ∈ schemeCands l) :
    ∃ n, c = l.drop n := by
  unfold schemeCands at hc
  by_cases h1 : ("https://".data).isPrefixOf l = true
  · rw [if_pos h1] at hc
    rcases List.mem_cons.mp hc with rfl | hc
    · exact ⟨8, rfl⟩
    · rcases List.mem_cons.mp hc with rfl | hc
      · exact ⟨0, rfl⟩
      · exact absurd hc (List.not_mem_nil c)
  · rw [if_neg h1] at hc
    by_cases h2 : ("http://".data).isPrefixOf l = true
    · rw [if_pos h2] at hc
      rcases List.mem_cons.mp hc with rfl | hc
      · exact ⟨7, rfl⟩
      · rcases List.mem_cons.mp hc with rfl | hc
        · exact ⟨0, rfl⟩
        · exact absurd hc (List.not_mem_nil c)
    · rw [if_neg h2] at hc
      rcases List.mem_cons.mp hc with rfl | hc
      · exact ⟨0, rfl⟩
      · exact absurd hc (List.not_mem_nil c)

theorem wwwCands_drop {l c : List Char} (hc : c ∈ wwwCands l) :
    ∃ n, c = l.drop n := by
  unfold wwwCands at hc
  by_cases h1 : ("www.".data).isPrefixOf l = true
  · rw [if_pos h1] at hc
    rcases List.mem_cons.mp hc with rfl | hc
    · exact ⟨4, rfl⟩
    · rcases List.mem_cons.mp hc with rfl | hc
      · exact ⟨0, rfl⟩
      · exact absurd hc (List.not_mem_nil c)
  · rw [if_neg h1] at hc
    rcases List.mem_cons.mp hc with rfl | hc
    · exact ⟨0, rfl⟩
    · exact absurd hc (List.not_mem_nil c)

theorem urlCandidates_drop {l c : List Char} (hc : c ∈ urlCandidates l) :
    ∃ n, c = l.drop n := by
  unfold urlCandidates at hc
  rw [List.mem_flatten] at hc
  obtain ⟨w, hw, hcw⟩ := hc
  rw [List.mem_map] at hw
  obtain ⟨sc, hsc, rfl⟩ := hw
  obtain ⟨n, rfl⟩ := schemeCands_drop hsc
  obtain ⟨m, rfl⟩ := wwwCands_drop hcw
  exact ⟨n + m, List.drop_drop m n l⟩

theorem urlCandidates_not_mem {l c : List Char} {x : Char} (hx : x ∉ l)
    (hc : c ∈ urlCandidates l) : x ∉ c := by
  obtain ⟨n, rfl⟩ := urlCandidates_drop hc
  exact fun hm => hx (List.mem_of_mem_drop hm)

/-! ## No-slash inputs are rejected by every pattern -/

theorem fullUrlCore_no_slash {l : List Char} (h : '/' ∉ l) :
    fullUrlCore l = none := by
  simp [fullUrlCore, splitAtSlash_of_not_mem h]

theorem FULL_URL_no_slash {l : List Char} (h : '/' ∉ l) :
    FULL_URL_PATTERN l = none := by
  unfold FULL_URL_PATTERN
  exact firstSome_eq_none
    (fun c hc => fullUrlCore_no_slash (urlCandidates_not_mem h hc))

theorem parseRepoInput_no_slash (dp : String) (s : List Char) (h : '/' ∉ s) :
    parseRepoInput dp s = none := by
  have htr : '/' ∉ trim s := fun m => h (mem_of_mem_trim m)
  have hF : FULL_URL_PATTERN (trim s) = none := FULL_URL_no_slash htr
  have hW : REPO_WITH_PATH_PATTERN (trim s) = none := by
    simp [REPO_WITH_PATH_PATTERN, splitAtSlash_of_not_mem htr]
  have hR : REPO_PATTERN (trim s) = none := by
    simp [REPO_PATTERN, splitAtSlash_of_not_mem htr]
  cases hb : s.isEmpty
  · cases hbt : (trim s).isEmpty
    · simp [parseRepoInput, hb, hbt, hF, repoFallback, hW, hR]
    · simp [parseRepoInput, hb, hbt]
  · simp [parseRepoInput, hb]

/-! ## Resolver specification lemmas -/

theorem repoFallback_spec {dp : String} {trimmed : List Char} {t : ResolvedTarget}
    (h : repoFallback dp trimmed = some t) :
    validOwner t.owner = true ∧ t.repo ≠ [] ∧ t.repo.all isRepoC = true ∧
      (t.path = [] ∨ t.path.head? = some '/') := by
  simp only [repoFallback] at h
  split at h
  · rename_i o r p heqW
    obtain rfl := Option.some.inj h
    exact REPO_WITH_PATH_spec heqW
  · split at h
    · rename_i o r heqR
      obtain rfl := Option.some.inj h
      obtain ⟨-, hvo, hrne, -, hrall⟩ := REPO_spec heqR
      exact ⟨hvo, hrne, hrall, Or.inl rfl⟩
    · exact Option.noConfusion h

theorem parseRepoInput_spec {dp : String} {s : List Char} {t : ResolvedTarget}
    (h : parseRepoInput dp s = some t) :
    validOwner t.owner = true ∧ t.repo ≠ [] ∧ t.repo.all isRepoC = true ∧
      (t.path = [] ∨ t.path.head? = some '/') := by
  simp only [parseRepoInput] at h
  split at h
  · exact Option.noConfusion h
  · split at h
    · exact Option.noConfusion h
    · split at h
      · rename_i d o r p heqF
        split at h
        · rename_i pf heqD
          obtain rfl := Option.some.inj h
          exact FULL_URL_spec heqF
        · exact repoFallback_spec h
      · exact repoFallback_spec h

theorem parseSearchQuery_spec {dp : String} {q : List Char} {t : ResolvedTarget}
    (h : parseSearchQuery dp q = some t) :
    validOwner t.owner = true ∧ t.repo ≠ [] ∧ t.repo.all isRepoC = true ∧
      (t.path = [] ∨ t.path.head? = some '/') := by
  simp only [parseSearchQuery] at h
  split at h
  · exact Option.noConfusion h
  · split at h
    · exact Option.noConfusion h
    · split at h
      · rename_i u heq
        obtain rfl := Option.some.inj h
        have hs := parseRepoInput_spec heq
        exact ⟨hs.1, hs.2.1, hs.2.2.1, hs.2.2.2⟩
      · exact Option.noConfusion h

theorem parseSearchQuery_none {dp : String} {q : List Char}
    (h : parseRepoInput dp ((detectKeyword dp (trim q) (splitWs (trim q))).2) = none) :
    parseSearchQuery dp q = none := by
  cases hb : q.isEmpty
  · cases hbt : (trim q).isEmpty
    · simp [parseSearchQuery, hb, hbt, h]
    · simp [parseSearchQuery, hb, hbt]
  · simp [parseSearchQuery, hb]


/-! ## A bare `owner/repo` input never matches the full-URL pattern -/

theorem prefixOf_to_IsPrefix {l1 l2 : List Char} (h : l1.isPrefixOf l2 = true) :
    l1 <+: l2 := by
  simpa using h

theorem FULL_URL_owner_repo {o r : List Char} (hvo : validOwner o = true)
    (hrall : r.all isRepoC = true) :
    FULL_URL_PATTERN (o ++ '/' :: r) = none := by
  have hoall : o.all isOwnerC = true := (validOwner_spec hvo).2.2.1
  have hone : o ≠ [] := (validOwner_spec hvo).1
  have hno : '/' ∉ o := fun m => absurd (List.all_eq_true.mp hoall _ m) (by decide)
  have hnr : '/' ∉ r := fun m => absurd (List.all_eq_true.mp hrall _ m) (by decide)
  have hcolon : ':' ∉ (o ++ '/' :: r) := by
    intro hm
    rcases List.mem_append.mp hm with hm | hm
    · exact absurd (List.all_eq_true.mp hoall _ hm) (by decide)
    · rcases List.mem_cons.mp hm with e | hm
      · exact absurd e (by decide)
      · exact absurd (List.all_eq_true.mp hrall _ hm) (by decide)
  have hs1 : ¬ (("https://".data).isPrefixOf (o ++ '/' :: r) = true) := by
    intro hp
    exact hcolon ((prefixOf_to_IsPrefix hp).subset (by decide))
  have hs2 : ¬ (("http://".data).isPrefixOf (o ++ '/' :: r) = true) := by
    intro hp
    exact hcolon ((prefixOf_to_IsPrefix hp).subset (by decide))
  have hw : ¬ (("www.".data).isPrefixOf (o ++ '/' :: r) = true) := by
    intro hp
    obtain ⟨t, ht⟩ := prefixOf_to_IsPrefix hp
    rw [show ("www.".data : List Char) = 'w' :: 'w' :: 'w' :: '.' :: [] from rfl] at ht
    rcases o with _ | ⟨a, _ | ⟨b, _ | ⟨c0, _ | ⟨d, o4⟩⟩⟩⟩
    · simp at ht
    · simp at ht
    · simp at ht
    · simp at ht
    · simp only [List.cons_append, List.nil_append, List.cons.injEq] at ht
      obtain ⟨-, -, -, hd, -⟩ := ht
      have hdo : isOwnerC d = true := List.all_eq_true.mp hoall d (by simp)
      rw [← hd] at hdo
      exact absurd hdo (by decide)
  have hsch : schemeCands (o ++ '/' :: r) = [o ++ '/' :: r] := by
    unfold schemeCands
    rw [if_neg hs1, if_neg hs2]
  have hwc : wwwCands (o ++ '/' :: r) = [o ++ '/' :: r] := by
    unfold wwwCands
    rw [if_neg hw]
  have hcands : urlCandidates (o ++ '/' :: r) = [o ++ '/' :: r] := by
    unfold urlCandidates
    rw [hsch]
    simp [hwc]
  have hcore : fullUrlCore (o ++ '/' :: r) = none := by
    have hne : o.isEmpty = false := by
      cases o
      · exact absurd rfl hone
      · rfl
    have hdall : o.all isDomainC = true :=
      List.all_eq_true.mpr
        (fun x hx => isDomainC_of_isOwnerC (List.all_eq_true.mp hoall x hx))
    simp [fullUrlCore, splitAtSlash_append o r hno, hne, hdall,
      splitAtSlash_of_not_mem hnr]
  unfold FULL_URL_PATTERN
  rw [hcands]
  simp [firstSome, hcore]

/-- A successful bare-pattern match fills the target with the default
platform, the two captured groups and an empty path. -/
theorem bare_binds_default {dp : String} {l o r : List Char}
    (h : REPO_PATTERN l = some (o, r)) :
    parseRepoInput dp l =
      some { platform := dp, owner := o, repo := r, path := [] } := by
  obtain ⟨hsp, hvo, hrne, hrlen, hrall⟩ := REPO_spec h
  obtain ⟨rfl, hno⟩ := splitAtSlash_eq_some hsp
  have hoall : o.all isOwnerC = true := (validOwner_spec hvo).2.2.1
  have hFU := FULL_URL_owner_repo hvo hrall
  have htr : trim (o ++ '/' :: r) = o ++ '/' :: r := by
    apply trim_eq_self
    intro c hc
    rcases List.mem_append.mp hc with hc | hc
    · exact not_ws_of_isOwnerC (List.all_eq_true.mp hoall _ hc)
    · rcases List.mem_cons.mp hc with rfl | hc
      · decide
      · exact not_ws_of_isRepoC (List.all_eq_true.mp hrall _ hc)
  have hWP : REPO_WITH_PATH_PATTERN (o ++ '/' :: r) = some (o, r, []) := by
    simp [REPO_WITH_PATH_PATTERN, splitAtSlash_append o r hno, hvo,
      matchRepoPath_all_repo hrne hrall]
  have hne : (o ++ '/' :: r).isEmpty = false := by
    cases o <;> rfl
  simp [parseRepoInput, hne, htr, hFU, repoFallback, hWP]

/-- A full-URL match whose domain is known to the registry decides
`parseRepoInput` regardless of the other grammars. -/
theorem parseRepoInput_full_url {dp pf : String} {l d o r p : List Char}
    (h1 : FULL_URL_PATTERN (trim l) = some (d, o, r, p))
    (h2 : findPlatformByDomain d = some pf) :
    parseRepoInput dp l =
      some { platform := pf, owner := o, repo := r, path := p } := by
  have hne : l.isEmpty = false := by
    cases hl : l.isEmpty
    · rfl
    · exfalso
      have he : l = [] := List.isEmpty_iff.mp hl
      rw [he] at h1
      rw [show trim ([] : List Char) = [] from rfl] at h1
      rw [show FULL_URL_PATTERN ([] : List Char) = none from rfl] at h1
      exact Option.noConfusion h1
  have hnet : (trim l).isEmpty = false := by
    cases hl : (trim l).isEmpty
    · rfl
    · exfalso
      have he : trim l = [] := List.isEmpty_iff.mp hl
      rw [he] at h1
      rw [show FULL_URL_PATTERN ([] : List Char) = none from rfl] at h1
      exact Option.noConfusion h1
  simp [parseRepoInput, hne, hnet, h1, h2]


/-! ## Claim theorems -/

/-- Claim C1, counterexample: contrary to the claim, `parseSearchQuery` on
"npm react" and on "react npm" yields no target at all (the stripped
remainder "react" contains no slash, so `parseRepoInput` rejects it), rather
than an npm target with owner react. -/
theorem claim_C1_counterexample :
    parseSearchQuery "github" (("npm react").data) = none ∧
    parseSearchQuery "github" (("react npm").data) = none := by decide

/-- Claim C1, amended: for every configured default platform, the search
queries "npm react" and "react npm" resolve to nothing (the keyword is
detected but the remaining identifier has no slash), while `buildRepoUrl`
applied to platform npm with owner react and empty repo and path does yield
the npm package URL the claim names. -/
theorem claim_C1_theorem : ∀ dp : String,
    parseSearchQuery dp (("npm react").data) = none ∧
    parseSearchQuery dp (("react npm").data) = none ∧
    buildRepoUrl "npm" (("react").data) [] [] =
      some (("https://www.npmjs.com/package/react").data) := by
  intro dp
  refine ⟨?_, ?_, by decide⟩
  · apply parseSearchQuery_none
    rw [show (detectKeyword dp (trim (("npm react").data))
        (splitWs (trim (("npm react").data)))).2 = ("react").data from rfl]
    exact parseRepoInput_no_slash dp _ (by decide)
  · apply parseSearchQuery_none
    rw [show (detectKeyword dp (trim (("react npm").data))
        (splitWs (trim (("react npm").data)))).2 = ("react").data from rfl]
    exact parseRepoInput_no_slash dp _ (by decide)

/-- Claim C2, counterexample: the search query "npm microsoft/vscode"
resolves to a target whose platform npm is a singleName platform and whose
repo field is the nonempty string vscode, contradicting the claim that
singleName targets never populate repo. -/
theorem claim_C2_counterexample :
    parseSearchQuery "github" (("npm microsoft/vscode").data) =
      some { platform := "npm", owner := ("microsoft").data,
             repo := ("vscode").data, path := [] } ∧
    (getPlatformInfo "npm").map (fun c => c.singleName) = some true ∧
    (("vscode").data : List Char) ≠ [] := by
  refine ⟨by decide, by decide, by decide⟩

/-- Claim C2, amended: every target the resolver produces has a nonempty
repo field, even when the detected platform is a singleName platform; and
resolving an identifier containing no slash returns no target regardless of
the platform. -/
theorem claim_C2_theorem :
    (∀ (dp : String) (s : List Char) (t : ResolvedTarget),
        parseSearchQuery dp s = some t → t.repo ≠ []) ∧
    (∀ (dp : String) (s : List Char), '/' ∉ s → parseRepoInput dp s = none) :=
  ⟨fun _ _ _ h => (parseSearchQuery_spec h).2.1,
   fun dp s h => parseRepoInput_no_slash dp s h⟩

/-- Witness for claim C2 at concrete inputs. -/
theorem claim_C2_witness :
    (("vscode").data : List Char) ≠ [] ∧
    parseRepoInput "github" (("react").data) = none :=
  ⟨claim_C2_theorem.1 "github" (("npm microsoft/vscode").data)
      { platform := "npm", owner := ("microsoft").data,
        repo := ("vscode").data, path := [] }
      (by decide),
   claim_C2_theorem.2 "github" (("react").data) (by decide)⟩

/-- Claim C3, counterexample: the input a/bbb... with 101 b characters is
accepted by the resolver with a repo of length 101, contradicting the claimed
1 to 100 character bound on repo (the path-bearing grammar has no upper
bound on its repo group). -/
theorem claim_C3_counterexample :
    (parseRepoInput "github" ('a' :: '/' :: List.replicate 101 'b')).map
        (fun t => t.repo.length) = some 101 := by decide

/-- Claim C3, amended: every target produced by `parseRepoInput` or
`parseSearchQuery` has an owner satisfying the owner grammar (`validOwner`:
1 to 39 characters, alphanumeric or hyphen, first and last alphanumeric), a
nonempty repo drawn from the repo character class (with no 100-character
upper bound in general), and a path that is empty or begins with a slash. -/
theorem claim_C3_theorem :
    ∀ (dp : String) (s : List Char) (t : ResolvedTarget),
      parseRepoInput dp s = some t ∨ parseSearchQuery dp s = some t →
      validOwner t.owner = true ∧ t.repo ≠ [] ∧ t.repo.all isRepoC = true ∧
        (t.path = [] ∨ t.path.head? = some '/') := by
  intro dp s t h
  rcases h with h | h
  · exact parseRepoInput_spec h
  · exact parseSearchQuery_spec h

/-- Witness for claim C3 at a concrete input. -/
theorem claim_C3_witness :
    validOwner ['x'] = true ∧ (['y'] : List Char) ≠ [] ∧
    (['y'] : List Char).all isRepoC = true ∧
    (([] : List Char) = [] ∨ ([] : List Char).head? = some '/') :=
  claim_C3_theorem "github" ('x' :: '/' :: ['y'])
    { platform := "github", owner := ['x'], repo := ['y'], path := [] }
    (Or.inl (by decide))

/-- Claim C4, counterexample: the npm template has no repo placeholder, so
the URL built for npm with owner o and repo r is
https://www.npmjs.com/package/o, which does not contain the string r,
refuting the claim for the npm platform. -/
theorem claim_C4_counterexample :
    buildRepoUrl "npm" (("o").data) (("r").data) [] =
      some (("https://www.npmjs.com/package/o").data) ∧
    containsSub (("https://www.npmjs.com/package/o").data) (("r").data) = false := by
  decide

/-- Claim C4, amended: for every registered platform, looking its canonical
domain up again returns that platform, and the URL built from its template
with owner o, repo r and empty path is defined and contains the literal
string o; it contains the literal string r whenever the platform is not a
singleName platform (for singleName platforms the repo argument is dropped,
and the npm URL in particular contains no r). -/
theorem claim_C4_theorem : ∀ e ∈ PLATFORMS,
    findPlatformByDomain (e.2.domain.data) = some e.1 ∧
    (buildRepoUrl e.1 (("o").data) (("r").data) []).isSome = true ∧
    containsSub ((buildRepoUrl e.1 (("o").data) (("r").data) []).getD [])
      (("o").data) = true ∧
    (e.2.singleName = false →
      containsSub ((buildRepoUrl e.1 (("o").data) (("r").data) []).getD [])
        (("r").data) = true) := by
  decide

/-- Witness for claim C4 at the github registry entry. -/
theorem claim_C4_witness :
    findPlatformByDomain (githubEntry.2.domain.data) = some githubEntry.1 ∧
    containsSub ((buildRepoUrl githubEntry.1 (("o").data) (("r").data) []).getD [])
      (("r").data) = true :=
  ⟨(claim_C4_theorem githubEntry (by decide)).1,
   (claim_C4_theorem githubEntry (by decide)).2.2.2 (by decide)⟩

/-- Claim C5, counterexample: a jump recorded at time 0 stores the falsy
timestamp 0, so the guard answers false at time 1 — strictly inside the
claimed window — and an expired check at time 6000 leaves the record in
place instead of deleting it. -/
theorem claim_C5_counterexample :
    (isRecentJump (recordJump [] 0 "github" "microsoft" "vscode") 1
      "github" "microsoft" "vscode").1 = false ∧
    jsMapGet
      (isRecentJump (recordJump [] 0 "github" "microsoft" "vscode") 6000
        "github" "microsoft" "vscode").2
      (jumpKey "github" "microsoft" "vscode") = some 0 := by decide

/-- Claim C5, amended: for every record time T of at least 1 (every real
Date.now() reading is positive), `isRecentJump` answers true at any time
strictly inside the 5000 ms window and false at or after T plus 5000 ms,
in which case the expired record has been deleted from the returned table;
the excluded timestamp 0 is treated by the falsy guard of the source as an
absent record and is neither recent nor deleted. -/
theorem claim_C5_theorem (m : List (List Char × Nat))
    (platform owner repo : String) (T t : Nat) (hT : 1 ≤ T) :
    (T < t → t < T + 5000 →
      (isRecentJump (recordJump m T platform owner repo) t platform owner repo).1
        = true) ∧
    (T + 5000 ≤ t →
      (isRecentJump (recordJump m T platform owner repo) t platform owner repo).1
        = false ∧
      jsMapGet
        (isRecentJump (recordJump m T platform owner repo) t platform owner repo).2
        (jumpKey platform owner repo) = none) := by
  have hg : jsMapGet (recordJump m T platform owner repo)
      (jumpKey platform owner repo) = some T :=
    jsMapGet_set m (jumpKey platform owner repo) T
  have hT0 : ¬ T = 0 := by omega
  constructor
  · intro h1 h2
    have hlt : t - T < 5000 := by omega
    simp [isRecentJump, hg, hT0, hlt]
  · intro h
    have hge : ¬ t - T < 5000 := by omega
    constructor
    · simp [isRecentJump, hg, hT0, hge]
    · simp [isRecentJump, hg, hT0, hge, jsMapGet_delete]

/-- Witness for claim C5 at concrete times 1, 2 and 5001. -/
theorem claim_C5_witness :
    (isRecentJump (recordJump [] 1 "github" "microsoft" "vscode") 2
      "github" "microsoft" "vscode").1 = true ∧
    (isRecentJump (recordJump [] 1 "github" "microsoft" "vscode") 5001
      "github" "microsoft" "vscode").1 = false :=
  ⟨(claim_C5_theorem [] "github" "microsoft" "vscode" 1 2 (by decide)).1
      (by decide) (by decide),
   ((claim_C5_theorem [] "github" "microsoft" "vscode" 1 5001 (by decide)).2
      (by decide)).1⟩

/-- Claim C6: with default platform github, the input microsoft/vscode
resolves to the github target with empty path and builds the expected URL;
in general any input matched by the bare owner/repo pattern binds to the
configured default platform with the two captured groups and empty path. -/
theorem claim_C6_theorem :
    (parseRepoInput "github" (("microsoft/vscode").data) =
        some { platform := "github", owner := ("microsoft").data,
               repo := ("vscode").data, path := [] } ∧
      buildRepoUrl "github" (("microsoft").data) (("vscode").data) [] =
        some (("https://github.com/microsoft/vscode").data)) ∧
    ∀ (dp : String) (l o r : List Char), REPO_PATTERN l = some (o, r) →
      parseRepoInput dp l =
        some { platform := dp, owner := o, repo := r, path := [] } :=
  ⟨by decide, fun _ _ _ _ h => bare_binds_default h⟩

/-- Witness for claim C6 at a concrete input and non-github default. -/
theorem claim_C6_witness :
    parseRepoInput "gitlab" ('x' :: '/' :: ['y']) =
      some { platform := "gitlab", owner := ['x'], repo := ['y'], path := [] } :=
  claim_C6_theorem.2 "gitlab" ('x' :: '/' :: ['y']) ['x'] ['y'] (by decide)

/-- Claim C7: the gitlab URL with an issues path resolves to the gitlab
target carrying that path; in general a full-URL match against a domain
known to the registry decides the resolver, taking precedence over the
owner/repo grammars. -/
theorem claim_C7_theorem :
    parseRepoInput "github" (("https://gitlab.com/owner/repo/issues/5").data) =
        some { platform := "gitlab", owner := ("owner").data,
               repo := ("repo").data, path := ("/issues/5").data } ∧
    ∀ (dp pf : String) (l d o r p : List Char),
      FULL_URL_PATTERN (trim l) = some (d, o, r, p) →
      findPlatformByDomain d = some pf →
      parseRepoInput dp l =
        some { platform := pf, owner := o, repo := r, path := p } :=
  ⟨by decide, fun _ _ _ _ _ _ _ h1 h2 => parseRepoInput_full_url h1 h2⟩

/-- Witness for claim C7 at a concrete full URL and non-github default. -/
theorem claim_C7_witness :
    parseRepoInput "npm" (("github.com/a/b").data) =
      some { platform := "github", owner := ['a'], repo := ['b'], path := [] } :=
  claim_C7_theorem.2 "npm" "github" (("github.com/a/b").data)
    (("github.com").data) ['a'] ['b'] [] (by decide) (by decide)

/-- Claim C8, counterexample: the registry object literal inherits the
Object.prototype properties, so the bracket access for the key constructor
is truthy although the key is not in the registry; the guard passes and the
replace call throws a TypeError instead of returning null — refuting both
the never-raises claim and the null-iff-unknown-key equivalence. -/
theorem claim_C8_counterexample :
    buildRepoUrlJs "constructor" [] [] [] = JsResult.thrown ∧
    getPlatformInfo "constructor" = none := by decide

/-- Claim C8, amended: for every platform key that is not an inherited
Object.prototype property, URL construction does not throw — it returns
exactly the substitution model `buildRepoUrl`, which is null precisely when
the key is not in the registry — and a known platform with all-empty fields
yields a URL with empty placeholder segments; for the twelve inherited,
unregistered keys the call throws a TypeError.  The resolver functions are
total by construction in this model, returning an optional target for every
input. -/
theorem claim_C8_theorem :
    (∀ (platform : String) (owner repo path : List Char),
        OBJECT_PROTOTYPE_KEYS.contains platform = false →
        buildRepoUrlJs platform owner repo path =
          JsResult.value (buildRepoUrl platform owner repo path) ∧
        (buildRepoUrl platform owner repo path = none ↔
          getPlatformInfo platform = none)) ∧
    (∀ (platform : String) (owner repo path : List Char),
        getPlatformInfo platform = none →
        OBJECT_PROTOTYPE_KEYS.contains platform = true →
        buildRepoUrlJs platform owner repo path = JsResult.thrown) ∧
    buildRepoUrl "github" [] [] [] = some (("https://github.com//").data) := by
  refine ⟨?_, ?_, by decide⟩
  · intro platform owner repo path hnp
    cases h : getPlatformInfo platform with
    | some config =>
      constructor
      · simp [buildRepoUrlJs, platformsAccess, h, buildRepoUrl]
      · simp [buildRepoUrl, h]
    | none =>
      have hnp2 : platform ∉ OBJECT_PROTOTYPE_KEYS := by simpa using hnp
      constructor
      · simp [buildRepoUrlJs, platformsAccess, h, hnp2, buildRepoUrl]
      · simp [buildRepoUrl, h]
  · intro platform owner repo path h hp
    have hp2 : platform ∈ OBJECT_PROTOTYPE_KEYS := by simpa using hp
    simp [buildRepoUrlJs, platformsAccess, h, hp2]

/-- Witness for claim C8 at a key that is neither registered nor
inherited. -/
theorem claim_C8_witness :
    buildRepoUrl "doesnotexist" [] [] [] = none :=
  ((claim_C8_theorem.1 "doesnotexist" [] [] [] (by decide)).2).mpr (by decide)

/-- Claim C9: `shouldBypass` answers true exactly when some configured
pattern occurs, case-insensitively, as a contiguous substring of the URL; in
particular the default pattern localhost suppresses the URL
localhost/owner/repo. -/
theorem claim_C9_theorem :
    (∀ (url : List Char) (patterns : List (List Char)),
        shouldBypass url patterns = true ↔
          ∃ pattern ∈ patterns, lowerStr pattern <:+: lowerStr url) ∧
    shouldBypass (("localhost/owner/repo").data) DEFAULT_BYPASS_PATTERNS = true := by
  constructor
  · intro url patterns
    simp only [shouldBypass]
    rw [List.any_eq_true]
    constructor
    · rintro ⟨pattern, hp, hc⟩
      exact ⟨pattern, hp, containsSub_iff.mp hc⟩
    · rintro ⟨pattern, hp, hc⟩
      exact ⟨pattern, hp, containsSub_iff.mpr hc⟩
  · decide

/-- Witness for claim C9 at a concrete URL carrying a scheme. -/
theorem claim_C9_witness :
    shouldBypass (("http://localhost/owner/repo").data) DEFAULT_BYPASS_PATTERNS
      = true :=
  (claim_C9_theorem.1 (("http://localhost/owner/repo").data)
      DEFAULT_BYPASS_PATTERNS).mpr
    ⟨("localhost").data, by decide, containsSub_iff.mp (by decide)⟩

/-- Claim C10: domain lookup is a mutual-substring search, so any nonempty
string that contains a registered domain, or is contained in one
(case-insensitively), yields some platform, the first matching one in table
order; in particular the single character o yields github, as does the host
github.com.evil.example. -/
theorem claim_C10_theorem :
    (∀ s : List Char, s ≠ [] →
        (∃ e ∈ PLATFORMS,
            containsSub (lowerStr s) (e.2.domain.data) = true ∨
            containsSub (e.2.domain.data) (lowerStr s) = true) →
        (findPlatformByDomain s).isSome = true) ∧
    findPlatformByDomain ['o'] = some "github" ∧
    findPlatformByDomain (("github.com.evil.example").data) = some "github" := by
  refine ⟨?_, by decide, by decide⟩
  intro s _ hex
  simp only [findPlatformByDomain]
  apply firstSome_isSome
  obtain ⟨e, he, hc⟩ := hex
  refine ⟨e, he, ?_⟩
  have hcond : (containsSub (lowerStr s) (e.2.domain.data) ||
      containsSub (e.2.domain.data) (lowerStr s)) = true := by
    rcases hc with h | h <;> simp [h]
  simp [hcond]

/-- Witness for claim C10 at the single-character host o. -/
theorem claim_C10_witness : (findPlatformByDomain ['o']).isSome = true :=
  claim_C10_theorem.1 ['o'] (by decide)
    ⟨githubEntry, by decide, Or.inr (by decide)⟩

end OpenIn
